import Mathlib

/-!
Verification of the inline suggestion annotation and diff-review engine of the
Elara co-creative prose editor, against its specification.

The subsystem lives in `src/components/Editor.tsx` (highlight injection,
diff show/accept/reject, margin card positioning), `src/App.tsx`
(suggestion-set ownership, proactive analysis) and
`src/services/geminiService.ts` (the suggestion source).

Modelling conventions (shallow embedding):
- All text is `List Char` (`Str`).  String literals enter via `String.toList`.
- The editor's DOM content is modelled two ways, mirroring the source:
  * a node list `Doc` for the operations that act on DOM nodes
    (`getElementById`, `replaceChild`, `outerHTML` assignment, `textContent`),
    which is the shape the engine itself produces: text nodes, highlight
    markers (`span.critique-marker`) and diff views
    (`span.diff-view-container`);
  * the serialized `innerHTML` string, because the highlight-injection pass in
    `Editor.tsx` works literally on `editor.innerHTML` with
    `String.includes` / `String.replace` (first occurrence).
  `render` is the browser's serialization of a `Doc` (text nodes escape
  `&`, `<`, `>`; attribute values escape `&`, `"`), and `ptx` is the
  browser's plain-text reading of serialized markup (tags skipped, the
  entities `&amp;` `&lt;` `&gt;` decoded per text run).
- `outerHTML` assignment is modelled as replacing the node by the nodes the
  assigned fragment parses to.  The code interpolates suggestion text raw
  into its templates, so the fragment parses to the template's intended
  structure (whitespace text nodes plus the element) only when the
  interpolated data is markup-inert in its position; otherwise the
  assignment is recorded as a `DNode.raw` node and the parse is out of the
  model's scope.
- `String.replace`'s GetSubstitution processing of the replacement string
  (dollar-sign escapes) is modelled by `getSubst`.
- Asynchronous backend calls are modelled by passing the response
  (`Except Unit (Option Str)`) and the JSON parser result as parameters;
  `JSON.parse` throwing is `none`.
-/

abbrev Str := List Char

/-- `Suggestion` from `src/types.ts`: originalText, suggestion (the rewrite),
reasoning, category.  The category enum is kept as text. -/
structure Suggestion where
  originalText : Str
  suggestion : Str
  reasoning : Str
  category : Str
deriving DecidableEq, Repr

/-- A node of the editor's DOM content.  `text` is a raw text node (or a run
of text nodes; adjacent text nodes are indistinguishable in every observation
the engine makes).  `marker idx content` is
`<span class="critique-marker" id="marker-idx" data-index="idx">content</span>`.
`diff idx orig ins` is the
`<span class="diff-view-container" id="diff-idx" data-original="orig">`
element built by `showDiffView`, holding `<span class="diff-del">orig</span>`
and `<span class="diff-ins">ins</span>` separated by the template's literal
whitespace text nodes.

`raw markup` records an `outerHTML` assignment whose interpolated data is not
markup-inert (it contains characters that change HTML tokenization in the
position it is interpolated into, such as `<`, `&`, or `"` inside an
attribute value): the browser then parses the fragment into a different node
structure.  The parse of such fragments is outside the scope of this model;
the node stores the exact assigned string, its observations below are
documented approximations, and no theorem in this file depends on them —
every theorem about `showDiffView` / `rejectSuggestion` output carries
markup-inertness hypotheses under which `raw` never arises. -/
inductive DNode where
  | text (s : Str)
  | marker (idx : Nat) (content : Str)
  | diff (idx : Nat) (orig ins : Str)
  | raw (markup : Str)
deriving DecidableEq, Repr

abbrev Doc := List DNode

/-- Decimal digits of a natural number, as the characters JS string
interpolation produces (`fuel`-structured so that it evaluates in the
kernel). -/
def natChars : Nat → Nat → Str → Str
  | 0, _, acc => acc
  | fuel + 1, n, acc =>
    let d := Char.ofNat (48 + n % 10)
    let n' := n / 10
    if n' = 0 then d :: acc else natChars fuel n' (d :: acc)

def natStr (n : Nat) : Str := natChars (n + 1) n []

/-- Serialization of a text node: the browser escapes `&`, `<`, `>`. -/
def escape : Str → Str
  | [] => []
  | c :: r =>
    (if c = '&' then "&amp;".toList
     else if c = '<' then "&lt;".toList
     else if c = '>' then "&gt;".toList
     else [c]) ++ escape r

/-- Serialization of an attribute value: the browser escapes `&` and `"`. -/
def escAttr : Str → Str
  | [] => []
  | c :: r =>
    (if c = '&' then "&amp;".toList
     else if c = '"' then "&quot;".toList
     else [c]) ++ escAttr r

/-- The browser's plain-text reading of serialized markup: characters outside
tags, with the entities `&amp;`, `&lt;`, `&gt;` decoded; an ampersand that
does not begin an entity within the same text run stays literal, and a tag
boundary interrupts an entity.  First argument: currently inside a tag. -/
def ptx : Bool → Str → Str
  | _, [] => []
  | true, c :: r => if c = '>' then ptx false r else ptx true r
  | false, '&' :: 'a' :: 'm' :: 'p' :: ';' :: t => '&' :: ptx false t
  | false, '&' :: 'l' :: 't' :: ';' :: t => '<' :: ptx false t
  | false, '&' :: 'g' :: 't' :: ';' :: t => '>' :: ptx false t
  | false, c :: r =>
    if c = '<' then ptx true r
    else if c = '&' then '&' :: ptx false r
    else c :: ptx false r

/-- The `id="marker-i"` attribute text of a highlight marker. -/
def idAttrM (i : Nat) : Str := "id=\"marker-".toList ++ natStr i ++ "\"".toList

/-- The `id="diff-i"` attribute text of a diff view. -/
def idAttrD (i : Nat) : Str := "id=\"diff-".toList ++ natStr i ++ "\"".toList

/-- Inside of the marker's opening tag, from `Editor.tsx` line 84:
`span class="critique-marker" id="marker-${index}" data-index="${index}"`. -/
def markerTagBody (i : Nat) : Str :=
  "span class=\"critique-marker\" ".toList ++ idAttrM i ++
    " data-index=\"".toList ++ natStr i ++ "\"".toList

def markerOpen (i : Nat) : Str := '<' :: (markerTagBody i ++ ['>'])

def closeSpan : Str := "</span>".toList

/-- The `highlightHTML` string built at `Editor.tsx` line 84: the suggestion's
`originalText` is interpolated raw (no escaping) into the wrapper. -/
def markerHTML (i : Nat) (orig : Str) : Str := markerOpen i ++ orig ++ closeSpan

/-- Whitespace of the `diffHTML` template literal (`Editor.tsx` lines 163-168):
newline plus the indentation of each line.  These become genuine text nodes
when the template is assigned to `outerHTML`. -/
def wsPre : Str := '\n' :: List.replicate 16 ' '
def wsInnerA : Str := '\n' :: List.replicate 20 ' '
def wsInnerB : Str := '\n' :: List.replicate 20 ' '
def wsInnerC : Str := '\n' :: List.replicate 16 ' '
def wsPost : Str := '\n' :: List.replicate 14 ' '

/-- `textContent`/`innerText` of a diff view container: its whitespace text
nodes and the del/ins span texts, in order. -/
def diffInner (orig ins : Str) : Str :=
  wsInnerA ++ orig ++ wsInnerB ++ ins ++ wsInnerC

/-- Serialization of one DOM node (`innerHTML` of the editor is the
concatenation over its nodes). -/
def renderN : DNode → Str
  | .text s => escape s
  | .marker i c => markerOpen i ++ escape c ++ closeSpan
  | .diff i orig ins =>
    '<' :: ("span class=\"diff-view-container\" ".toList ++ idAttrD i ++
      " data-original=\"".toList ++ escAttr orig ++ "\"".toList ++ ['>']) ++
    wsInnerA ++ "<span class=\"diff-del\">".toList ++ escape orig ++ closeSpan ++
    wsInnerB ++ "<span class=\"diff-ins\">".toList ++ escape ins ++ closeSpan ++
    wsInnerC ++ closeSpan
  | .raw m => m

def render : Doc → Str
  | [] => []
  | n :: r => renderN n ++ render r

/-- The Document's plain-text content in the sense of the specification's
Data Model: the text ignoring annotation markup.  A highlight marker
contributes its content; a diff view is annotation apparatus proposing a
change, so it contributes the preserved original text (`data-original`) --
this is the reading under which §4.2's "showDiff does not alter plain text"
is even expressible. -/
def plainTextN : DNode → Str
  | .text s => s
  | .marker _ c => c
  | .diff _ orig _ => orig
  | .raw m => ptx false m

def plainText : Doc → Str
  | [] => []
  | n :: r => plainTextN n ++ plainText r

/-- `editor.innerText` under the editor's `white-space: pre-wrap` style: the
literal character data of every text node, in document order.  For an open
diff view this includes the template's whitespace and both the deletion and
insertion texts. -/
def innerTextN : DNode → Str
  | .text s => s
  | .marker _ c => c
  | .diff _ orig ins => diffInner orig ins
  | .raw m => ptx false m

def innerTextOf : Doc → Str
  | [] => []
  | n :: r => innerTextN n ++ innerTextOf r

/-- The cleanup phase of the highlight-injection pass (`Editor.tsx` lines
62-76): every `.critique-marker` is replaced by a text node holding its
`textContent`, every `.diff-view-container` by a text node holding its
`data-original` attribute (always set by `showDiffView`). -/
def stripAllN : DNode → DNode
  | .text s => .text s
  | .marker _ c => .text c
  | .diff _ orig _ => .text orig
  | .raw m => .raw m

def stripAll (d : Doc) : Doc := d.map stripAllN

/-- `document.getElementById('marker-i')`: the first marker with index `i` in
document order, returning its `textContent`. -/
def markerAt? : Doc → Nat → Option Str
  | [], _ => none
  | .marker j c :: r, i => if j = i then some c else markerAt? r i
  | _ :: r, i => markerAt? r i

/-- `document.getElementById('diff-i')`: the first diff view with index `i`,
returning its (`data-original`, insertion) pair. -/
def diffAt? : Doc → Nat → Option (Str × Str)
  | [], _ => none
  | .diff j o n :: r, i => if j = i then some (o, n) else diffAt? r i
  | _ :: r, i => diffAt? r i

/-- Replace the first marker with index `i` by the given nodes (the effect of
assigning its `outerHTML`). -/
def replaceMarker : Doc → Nat → Doc → Doc
  | [], _, _ => []
  | .marker j c :: r, i, repl =>
    if j = i then repl ++ r else .marker j c :: replaceMarker r i repl
  | n :: r, i, repl => n :: replaceMarker r i repl

/-- Replace the first diff view with index `i` by the given nodes
(`outerHTML` assignment in `rejectSuggestion`, `replaceChild` in
`acceptSuggestion`). -/
def replaceDiff : Doc → Nat → Doc → Doc
  | [], _, _ => []
  | .diff j o n :: r, i, repl =>
    if j = i then repl ++ r else .diff j o n :: replaceDiff r i repl
  | n :: r, i, repl => n :: replaceDiff r i repl

def countDiffs : Doc → Nat
  | [] => 0
  | .diff _ _ _ :: r => countDiffs r + 1
  | _ :: r => countDiffs r

/-- Editor component state that the review operations touch: the DOM content
and `activeSuggestionIndex`. -/
structure EdState where
  doc : Doc
  active : Option Nat
deriving DecidableEq, Repr

/-- Markup-inert in text-content position: parsing the fragment keeps the
characters as literal character data (no tag start `<`, no entity start
`&`). -/
def textInertB (s : Str) : Bool := s.all fun c => c != '<' && c != '&'

/-- Markup-inert inside a double-quoted attribute value: no early quote `"`,
no entity start `&`. -/
def attrInertB (s : Str) : Bool := s.all fun c => c != '"' && c != '&'

/-- The exact `diffHTML` template string of `Editor.tsx` lines 163-168, with
`originalText` interpolated raw into the `data-original` attribute and the
del span, and the rewrite into the ins span. -/
def diffHTMLStr (i : Nat) (orig ins : Str) : Str :=
  wsPre ++ ('<' :: ("span class=\"diff-view-container\" ".toList ++ idAttrD i ++
    " data-original=\"".toList ++ orig ++ "\"".toList ++ ['>'])) ++
  wsInnerA ++ "<span class=\"diff-del\">".toList ++ orig ++ closeSpan ++
  wsInnerB ++ "<span class=\"diff-ins\">".toList ++ ins ++ closeSpan ++
  wsInnerC ++ closeSpan ++ wsPost

/-- `showDiffView` (`Editor.tsx` lines 153-174): look up `marker-index`; if it
exists and its `textContent` equals the suggestion's `originalText`, assign
the `diffHTML` template to its `outerHTML` and set `activeSuggestionIndex`;
otherwise do nothing.  The template interpolates the suggestion texts raw:
when they are markup-inert in their positions (`originalText` in an
attribute value and as span text, the rewrite as span text) the fragment
parses to the template's leading/trailing whitespace text nodes around the
diff container; otherwise the parse is out of the model's scope and the
assignment is recorded as a `raw` node holding the assigned string. -/
def showDiffView (sgs : List Suggestion) (i : Nat) (st : EdState) : EdState :=
  match sgs[i]? with
  | none => st
  | some s =>
    match markerAt? st.doc i with
    | none => st
    | some c =>
      if c = s.originalText then
        if textInertB s.originalText && attrInertB s.originalText &&
            textInertB s.suggestion then
          { doc := replaceMarker st.doc i
              [.text wsPre, .diff i s.originalText s.suggestion, .text wsPost],
            active := some i }
        else
          { doc := replaceMarker st.doc i
              [.raw (diffHTMLStr i s.originalText s.suggestion)],
            active := some i }
      else st

/-- `rejectSuggestion` (`Editor.tsx` lines 194-207): replace the diff view by
assigning the `originalHTML` marker template (the same shape as
`highlightHTML`, `originalText` interpolated raw as the span's body) to its
`outerHTML`; clear the active index.  It does not call `onContentChange` and
does not remove the suggestion from the list.  As in `showDiffView`, the
parse is the plain marker node only when `originalText` is markup-inert as
span text; otherwise the assignment is recorded as a `raw` node. -/
def rejectSuggestion (sgs : List Suggestion) (i : Nat) (st : EdState) : EdState :=
  match sgs[i]? with
  | none => st
  | some s =>
    match diffAt? st.doc i with
    | none => st
    | some _ =>
      if textInertB s.originalText then
        { doc := replaceDiff st.doc i [.marker i s.originalText],
          active := none }
      else
        { doc := replaceDiff st.doc i [.raw (markerHTML i s.originalText)],
          active := none }

/-- Application-level state relevant to accepting: the suggestion list owned
by `App.tsx`, the editor state, and `editorContent` (kept by
`onContentChange`). -/
structure AppState where
  sugs : List Suggestion
  ed : EdState
  editorContent : Str
deriving DecidableEq, Repr

/-- `acceptSuggestion` (`Editor.tsx` lines 176-192) combined with App's
`handleSuggestionHandled` (`App.tsx` lines 39-42): replace the whole diff
container by a text node holding the suggestion's rewrite, report
`editor.innerText` through `onContentChange`, remove exactly the handled
suggestion object from the list (`item !== s` removes the reference at the
batch position), and clear the active index. -/
def acceptSuggestion (i : Nat) (app : AppState) : AppState :=
  match app.sugs[i]? with
  | none => app
  | some s =>
    match diffAt? app.ed.doc i with
    | none => app
    | some _ =>
      let doc' := replaceDiff app.ed.doc i [.text s.suggestion]
      { sugs := app.sugs.eraseIdx i,
        ed := { doc := doc', active := none },
        editorContent := innerTextOf doc' }

/-- Index of the first occurrence of `pat` in `w` (JS `String.indexOf` /
`includes` semantics; the empty pattern matches at 0). -/
def findIdx? (pat : Str) : Str → Option Nat
  | [] => if pat.isPrefixOf [] then some 0 else none
  | c :: r =>
    if pat.isPrefixOf (c :: r) then some 0
    else (findIdx? pat r).map (· + 1)

/-- JS `content.includes(pat)`. -/
def containsSeq (w pat : Str) : Bool := (findIdx? pat w).isSome

/-- The GetSubstitution processing JS `String.replace` applies to the
replacement string: a dollar sign starts an escape — two dollar signs give a
literal one, a dollar sign before an ampersand inserts the matched
substring, before a backquote (`Char.ofNat 96`) the portion of the string
preceding the match, before a straight quote (`Char.ofNat 39`) the portion
following it; any other dollar sign is literal.  With a string search
pattern there are no capture groups, so numbered and named references stay
literal (the fall-through branch). -/
def getSubst (matched before after : Str) : Str → Str
  | [] => []
  | '$' :: rest =>
    match rest with
    | [] => ['$']
    | c :: rest2 =>
      if c = '$' then '$' :: getSubst matched before after rest2
      else if c = '&' then matched ++ getSubst matched before after rest2
      else if c = Char.ofNat 96 then before ++ getSubst matched before after rest2
      else if c = Char.ofNat 39 then after ++ getSubst matched before after rest2
      else '$' :: getSubst matched before after (c :: rest2)
  | c :: rest => c :: getSubst matched before after rest

/-- JS `content.replace(pat, new)` for a string pattern: replace the first
occurrence only, with GetSubstitution applied to the replacement; no
occurrence leaves the string unchanged. -/
def replaceFirst (w pat new : Str) : Str :=
  match findIdx? pat w with
  | none => w
  | some i =>
    w.take i ++ getSubst pat (w.take i) (w.drop (i + pat.length)) new ++
      w.drop (i + pat.length)

/-- The wrapping loop of the highlight-injection pass (`Editor.tsx` lines
81-87): for each suggestion in batch order, if the current `content` string
contains `originalText`, replace its first occurrence by the
`highlightHTML` wrapper.  The search runs over the serialized markup string,
including any markup injected for earlier suggestions. -/
def injectLoop : List Suggestion → Nat → Str → Str
  | [], _, content => content
  | s :: rest, idx, content =>
    let content' :=
      if containsSeq content s.originalText then
        replaceFirst content s.originalText (markerHTML idx s.originalText)
      else content
    injectLoop rest (idx + 1) content'

/-- Anchor lookup of `calculatePositions` (`Editor.tsx` line 105):
`getElementById('marker-i') || getElementById('diff-i')`, modelled on the
serialized content as the position of the first occurrence of the id
attribute text. -/
def anchorPos (i : Nat) (content : Str) : Option Nat :=
  match findIdx? (idAttrM i) content with
  | some p => some p
  | none => findIdx? (idAttrD i) content

/-- Vertical offset of an anchor under `white-space: pre-wrap`: the number of
line breaks in the content preceding it.  Anchor geometry's vertical
component is monotone in this count, and none of the markup the injection
pass inserts contains a newline. -/
def topOf (content : Str) (p : Nat) : Nat := (content.take p).count '\n'

/-- `MarginCardPosition` from `Editor.tsx` lines 13-17 (the `suggestion`
field is the batch element at `index` and is omitted). -/
structure MarginCardPosition where
  index : Nat
  top : Nat
deriving DecidableEq, Repr

/-- `calculatePositions` (`Editor.tsx` lines 97-119): for each suggestion in
batch order, if its marker or diff element is found, push an entry with its
vertical offset.  No sorting is applied. -/
def calculatePositions (sgs : List Suggestion) (content : Str) : List MarginCardPosition :=
  (List.range sgs.length).filterMap fun i =>
    (anchorPos i content).map fun p => ⟨i, topOf content p⟩

/-- The highlight-injection effect (`Editor.tsx` lines 53-92) together with
the `calculatePositions` it schedules: with an empty batch it only clears the
card positions and returns; otherwise it strips all existing markers and
diff views from the markup, runs the wrapping loop over the serialized
string, assigns the result to `editor.innerHTML`, and recomputes positions
from it. -/
def highlightEffect (sgs : List Suggestion) (doc : Doc) : Str × List MarginCardPosition :=
  if sgs.isEmpty then (render doc, [])
  else
    let content := injectLoop sgs 0 (render (stripAll doc))
    (content, calculatePositions sgs content)

/-- Tag-nesting state after scanning `s` from state `b` (`true` = inside a
tag). -/
def tagBal : Bool → Str → Bool
  | b, [] => b
  | true, c :: r => tagBal (if c = '>' then false else true) r
  | false, c :: r => tagBal (if c = '<' then true else false) r

/-- Text free of the markup-significant characters `&`, `<`, `>`. -/
def cleanB (s : Str) : Bool := s.all fun c => c != '&' && c != '<' && c != '>'

/-- Text free of ampersands. -/
def ampFreeB (s : Str) : Bool := s.all fun c => c != '&'

/-- Text free of `>`. -/
def noGtB (s : Str) : Bool := s.all fun c => c != '>'

/-- Text free of dollar signs, so GetSubstitution leaves it unchanged when it
occurs inside a replacement string. -/
def dollarFreeB (s : Str) : Bool := s.all fun c => c != '$'

def docCleanN : DNode → Bool
  | .text s => cleanB s
  | .marker _ c => cleanB c
  | .diff _ o n => cleanB o && cleanB n
  | .raw _ => false

/-- A document whose every character datum is free of `&`, `<`, `>` (and
which contains no unmodelled `raw` markup). -/
def docCleanB (d : Doc) : Bool := d.all docCleanN

/-- The `response.text || "[]"` default in `analyzeTextForSuggestions`:
a missing or empty `text` field falls back to the empty JSON array. -/
def jsonStrOf : Option Str → Str
  | none => "[]".toList
  | some t => if t.isEmpty then "[]".toList else t

/-- `analyzeTextForSuggestions` (`src/services/geminiService.ts` lines
85-116).  The backend call is a parameter: `Except.error` is a rejected
request, `Except.ok r` a response whose `text` field is `r` (`none` when the
field is missing).  `parseJson` is `JSON.parse` (`none` = throw).  Every
error path is caught and resolves to `[]`.  The returned flag records
whether the backend was contacted (the short-input guard returns before the
request). -/
def analyzeTextForSuggestions (text : Str)
    (response : Except Unit (Option Str))
    (parseJson : Str → Option (List Suggestion)) : List Suggestion × Bool :=
  if text.isEmpty || text.length < 50 then ([], false)
  else
    match response with
    | .error _ => ([], true)
    | .ok r =>
      match parseJson (jsonStrOf r) with
      | none => ([], true)
      | some l => (l, true)

/-- `runProactiveAnalysis` (`src/App.tsx` lines 44-62): with fewer than 10
characters it alerts and leaves the suggestion set alone; otherwise it
replaces the suggestion set with whatever `analyzeTextForSuggestions`
resolves to, unconditionally. -/
def runProactiveAnalysis (editorContent : Str) (prev : List Suggestion)
    (response : Except Unit (Option Str))
    (parseJson : Str → Option (List Suggestion)) : List Suggestion :=
  if editorContent.isEmpty || editorContent.length < 10 then prev
  else (analyzeTextForSuggestions editorContent response parseJson).1

/-! ## Basic lemmas about the embedding -/

theorem plainText_append (A B : Doc) :
    plainText (A ++ B) = plainText A ++ plainText B := by
  induction A with
  | nil => rfl
  | cons n r ih => simp [plainText, ih]

theorem innerTextOf_append (A B : Doc) :
    innerTextOf (A ++ B) = innerTextOf A ++ innerTextOf B := by
  induction A with
  | nil => rfl
  | cons n r ih => simp [innerTextOf, ih]

theorem render_append (A B : Doc) :
    render (A ++ B) = render A ++ render B := by
  induction A with
  | nil => rfl
  | cons n r ih => simp [render, ih]

theorem escape_append (a b : Str) : escape (a ++ b) = escape a ++ escape b := by
  induction a with
  | nil => rfl
  | cons c r ih => simp [escape, ih]

theorem cleanB_append (a b : Str) :
    cleanB (a ++ b) = (cleanB a && cleanB b) := by
  simp [cleanB, List.all_append]

theorem escape_clean {s : Str} (h : cleanB s = true) : escape s = s := by
  induction s with
  | nil => rfl
  | cons c r ih =>
    simp only [cleanB, List.all_cons, Bool.and_eq_true, bne_iff_ne, ne_eq] at h
    obtain ⟨⟨h1, h2⟩, h3⟩ := h
    simp [escape, h1.1, h1.2, h2, ih (by simpa [cleanB] using h3)]

theorem findIdx?_of_prefix {pat w : Str} (h : pat.isPrefixOf w = true) :
    findIdx? pat w = some 0 := by
  cases w <;> simp [findIdx?, h]

theorem findIdx?_isSome_parts (x pat y : Str) :
    (findIdx? pat (x ++ (pat ++ y))).isSome = true := by
  induction x with
  | nil =>
    rw [List.nil_append,
      findIdx?_of_prefix (List.isPrefixOf_iff_prefix.mpr (List.prefix_append pat y))]
    rfl
  | cons c r ih =>
    by_cases hp : pat.isPrefixOf (c :: (r ++ (pat ++ y))) = true
    · simp [findIdx?, hp]
    · simpa [findIdx?, hp] using ih

theorem getSubst_cons (m b a : Str) {c : Char} (rest : Str) (h : c ≠ '$') :
    getSubst m b a (c :: rest) = c :: getSubst m b a rest := by
  rcases rest with _ | ⟨c2, r2⟩ <;> simp [getSubst, h]

theorem getSubst_dollarFree {new : Str} (h : dollarFreeB new = true)
    (m b a : Str) : getSubst m b a new = new := by
  induction new with
  | nil => rfl
  | cons c rest ih =>
    simp only [dollarFreeB, List.all_cons, Bool.and_eq_true, bne_iff_ne,
      ne_eq] at h
    rw [getSubst_cons m b a rest h.1, ih (by simpa [dollarFreeB] using h.2)]

theorem replaceFirst_parts (x pat y new : Str)
    (h : findIdx? pat (x ++ pat ++ y) = some x.length)
    (hnew : dollarFreeB new = true) :
    replaceFirst (x ++ pat ++ y) pat new = x ++ new ++ y := by
  have ht : (x ++ pat ++ y).take x.length = x := by
    rw [List.append_assoc]; exact List.take_left x (pat ++ y)
  have hd : (x ++ pat ++ y).drop (x.length + pat.length) = y := by
    have hl : x.length + pat.length = (x ++ pat).length := (List.length_append x pat).symm
    rw [hl]; exact List.drop_left (x ++ pat) y
  unfold replaceFirst
  rw [h]
  show (x ++ pat ++ y).take x.length ++
      getSubst pat ((x ++ pat ++ y).take x.length)
        ((x ++ pat ++ y).drop (x.length + pat.length)) new ++
      (x ++ pat ++ y).drop (x.length + pat.length) = x ++ new ++ y
  rw [getSubst_dollarFree hnew, ht, hd]

theorem containsSeq_of_findIdx? {w pat : Str} {i : Nat}
    (h : findIdx? pat w = some i) : containsSeq w pat = true := by
  simp [containsSeq, h]

/-- No marker with index `i` appears in the node list. -/
def noMarkerIdx (i : Nat) (d : Doc) : Bool :=
  d.all fun n => match n with | .marker j _ => j != i | _ => true

/-- No diff view with index `i` appears in the node list. -/
def noDiffIdx (i : Nat) (d : Doc) : Bool :=
  d.all fun n => match n with | .diff j _ _ => j != i | _ => true

theorem markerAt?_parts {A : Doc} {i : Nat} (c : Str) (B : Doc)
    (hA : noMarkerIdx i A = true) :
    markerAt? (A ++ .marker i c :: B) i = some c := by
  induction A with
  | nil => simp [markerAt?]
  | cons n r ih =>
    simp only [noMarkerIdx, List.all_cons, Bool.and_eq_true] at hA
    cases n with
    | text s => exact ih hA.2
    | marker j d =>
      have : j ≠ i := by simpa using hA.1
      simpa [markerAt?, this] using ih hA.2
    | diff j o m => exact ih hA.2
    | raw m => exact ih hA.2

theorem replaceMarker_parts {A : Doc} {i : Nat} (c : Str) (B : Doc) (repl : Doc)
    (hA : noMarkerIdx i A = true) :
    replaceMarker (A ++ .marker i c :: B) i repl = A ++ repl ++ B := by
  induction A with
  | nil => simp [replaceMarker]
  | cons n r ih =>
    simp only [noMarkerIdx, List.all_cons, Bool.and_eq_true] at hA
    cases n with
    | text s => simpa [replaceMarker] using ih hA.2
    | marker j d =>
      have : j ≠ i := by simpa using hA.1
      simpa [replaceMarker, this] using ih hA.2
    | diff j o m => simpa [replaceMarker] using ih hA.2
    | raw m => simpa [replaceMarker] using ih hA.2

theorem diffAt?_parts {A : Doc} {i : Nat} (o n : Str) (B : Doc)
    (hA : noDiffIdx i A = true) :
    diffAt? (A ++ .diff i o n :: B) i = some (o, n) := by
  induction A with
  | nil => simp [diffAt?]
  | cons m r ih =>
    simp only [noDiffIdx, List.all_cons, Bool.and_eq_true] at hA
    cases m with
    | text s => exact ih hA.2
    | marker j d => exact ih hA.2
    | diff j p q =>
      have : j ≠ i := by simpa using hA.1
      simpa [diffAt?, this] using ih hA.2
    | raw mk => exact ih hA.2

theorem replaceDiff_parts {A : Doc} {i : Nat} (o n : Str) (B : Doc) (repl : Doc)
    (hA : noDiffIdx i A = true) :
    replaceDiff (A ++ .diff i o n :: B) i repl = A ++ repl ++ B := by
  induction A with
  | nil => simp [replaceDiff]
  | cons m r ih =>
    simp only [noDiffIdx, List.all_cons, Bool.and_eq_true] at hA
    cases m with
    | text s => simpa [replaceDiff] using ih hA.2
    | marker j d => simpa [replaceDiff] using ih hA.2
    | diff j p q =>
      have : j ≠ i := by simpa using hA.1
      simpa [replaceDiff, this] using ih hA.2
    | raw mk => simpa [replaceDiff] using ih hA.2

theorem mem_replaceMarker {doc : Doc} {n : DNode} (i : Nat) (repl : Doc)
    (hn : n ∈ doc) (h : ∀ j c, n ≠ .marker j c) :
    n ∈ replaceMarker doc i repl := by
  induction doc with
  | nil => cases hn
  | cons m r ih =>
    cases hn with
    | head =>
      cases n with
      | text s => simp [replaceMarker]
      | marker j c => exact absurd rfl (h j c)
      | diff j o q => simp [replaceDiff, replaceMarker]
      | raw mk => simp [replaceMarker]
    | tail _ hm =>
      cases m with
      | text s => simp [replaceMarker, ih hm]
      | marker j c =>
        by_cases hj : j = i
        · subst hj
          have hmem : n ∈ repl ++ r := List.mem_append_right repl hm
          simpa [replaceMarker] using hmem
        · simp [replaceMarker, hj, ih hm]
      | diff j o q => simp [replaceMarker, ih hm]
      | raw mk => simp [replaceMarker, ih hm]

theorem diffAt?_isSome_iff {doc : Doc} {j : Nat} :
    (diffAt? doc j).isSome = true ↔ ∃ o n, DNode.diff j o n ∈ doc := by
  induction doc with
  | nil => simp [diffAt?]
  | cons m r ih =>
    cases m with
    | text s => simpa [diffAt?] using ih
    | marker k c => simpa [diffAt?] using ih
    | raw mk => simpa [diffAt?] using ih
    | diff k o n =>
      by_cases hk : k = j
      · subst hk
        have hred : diffAt? (DNode.diff k o n :: r) k = some (o, n) := by
          simp [diffAt?]
        rw [hred]
        simp only [Option.isSome_some, true_iff]
        exact ⟨o, n, List.mem_cons_self _ _⟩
      · simp only [diffAt?, if_neg hk]
        rw [ih]
        constructor
        · rintro ⟨o', n', hm⟩; exact ⟨o', n', List.mem_cons_of_mem _ hm⟩
        · rintro ⟨o', n', hm⟩
          rcases List.mem_cons.mp hm with he | hm'
          · cases he; exact absurd rfl hk
          · exact ⟨o', n', hm'⟩

/-! ## Characters of interpolated indices, and plain-text reading lemmas -/

theorem natChars_digits :
    ∀ (fuel n : Nat) (acc : Str),
      (∀ c ∈ acc, 48 ≤ c.toNat ∧ c.toNat ≤ 57) →
      ∀ c ∈ natChars fuel n acc, 48 ≤ c.toNat ∧ c.toNat ≤ 57 := by
  intro fuel
  induction fuel with
  | zero => intro n acc hacc c hc; exact hacc c hc
  | succ f ih =>
    intro n acc hacc c hc
    have hd : 48 ≤ (Char.ofNat (48 + n % 10)).toNat ∧
        (Char.ofNat (48 + n % 10)).toNat ≤ 57 := by
      have hm : n % 10 < 10 := Nat.mod_lt n (by norm_num)
      interval_cases h : n % 10 <;> simp_all
    have hacc' : ∀ c ∈ Char.ofNat (48 + n % 10) :: acc,
        48 ≤ c.toNat ∧ c.toNat ≤ 57 := by
      intro c hc
      rcases List.mem_cons.mp hc with he | hm
      · subst he; exact hd
      · exact hacc c hm
    by_cases h0 : n / 10 = 0
    · simp only [natChars, h0, if_pos rfl] at hc
      exact hacc' c hc
    · simp only [natChars, if_neg h0] at hc
      exact ih (n / 10) _ hacc' c hc

theorem natStr_digits (n : Nat) :
    ∀ c ∈ natStr n, 48 ≤ c.toNat ∧ c.toNat ≤ 57 :=
  natChars_digits (n + 1) n [] (by intro c hc; cases hc)

theorem noGtB_append (a b : Str) : noGtB (a ++ b) = (noGtB a && noGtB b) := by
  simp [noGtB, List.all_append]

theorem natStr_noGt (n : Nat) : noGtB (natStr n) = true := by
  rw [noGtB, List.all_eq_true]
  intro c hc
  have h := (natStr_digits n c hc).2
  have hne : c ≠ '>' := by
    intro he; subst he; exact absurd h (by decide)
  simpa using hne

theorem dollarFreeB_append (a b : Str) :
    dollarFreeB (a ++ b) = (dollarFreeB a && dollarFreeB b) := by
  simp [dollarFreeB, List.all_append]

theorem dollarFreeB_cons (c : Char) (s : Str) :
    dollarFreeB (c :: s) = ((c != '$') && dollarFreeB s) := by
  simp [dollarFreeB]

theorem natStr_dollarFree (n : Nat) : dollarFreeB (natStr n) = true := by
  rw [dollarFreeB, List.all_eq_true]
  intro c hc
  have h := (natStr_digits n c hc).1
  have hne : c ≠ '$' := by
    intro he; subst he; exact absurd h (by decide)
  simpa using hne

theorem markerHTML_dollarFree (i : Nat) {orig : Str}
    (h : dollarFreeB orig = true) : dollarFreeB (markerHTML i orig) = true := by
  have h1 : dollarFreeB ("span class=\"critique-marker\" ".toList) = true := by
    decide
  have h2 : dollarFreeB ("id=\"marker-".toList) = true := by decide
  have h3 : dollarFreeB ("\"".toList) = true := by decide
  have h4 : dollarFreeB (" data-index=\"".toList) = true := by decide
  have h5 : dollarFreeB closeSpan = true := by decide
  have h6 : dollarFreeB (['>'] : Str) = true := by decide
  have h7 : ('<' != '$') = true := by decide
  simp only [markerHTML, markerOpen, markerTagBody, idAttrM, dollarFreeB_append,
    dollarFreeB_cons, h1, h2, h3, h4, h5, h6, h7, h, natStr_dollarFree i,
    Bool.and_true, Bool.true_and]

theorem markerTagBody_noGt (i : Nat) : noGtB (markerTagBody i) = true := by
  have h1 : noGtB ("span class=\"critique-marker\" ".toList) = true := by decide
  have h2 : noGtB ("id=\"marker-".toList) = true := by decide
  have h3 : noGtB ("\"".toList) = true := by decide
  have h4 : noGtB (" data-index=\"".toList) = true := by decide
  simp only [markerTagBody, idAttrM, noGtB_append, h1, h2, h3, h4, natStr_noGt i,
    Bool.true_and, Bool.and_true]

theorem ampFreeB_of_clean {s : Str} (h : cleanB s = true) : ampFreeB s = true := by
  rw [cleanB, List.all_eq_true] at h
  rw [ampFreeB, List.all_eq_true]
  intro c hc
  have := h c hc
  simp only [Bool.and_eq_true] at this
  exact this.1.1

theorem ampFreeB_append (a b : Str) :
    ampFreeB (a ++ b) = (ampFreeB a && ampFreeB b) := by
  simp [ampFreeB, List.all_append]

theorem ptx_cons_true (c : Char) (r : Str) :
    ptx true (c :: r) = if c = '>' then ptx false r else ptx true r := rfl

theorem ptx_cons_false {c : Char} (r : Str) (h1 : c ≠ '&') :
    ptx false (c :: r) = if c = '<' then ptx true r else c :: ptx false r := by
  rcases r with _ | ⟨c2, r2⟩
  · simp [ptx, h1]
  · simp [ptx, h1]

theorem tagBal_clean {s : Str} (h : cleanB s = true) : tagBal false s = false := by
  induction s with
  | nil => rfl
  | cons c r ih =>
    simp only [cleanB, List.all_cons, Bool.and_eq_true, bne_iff_ne, ne_eq] at h
    have hlt : c ≠ '<' := h.1.1.2
    simp only [tagBal, if_neg hlt]
    exact ih (by simpa [cleanB] using h.2)

theorem ptx_clean_id {s : Str} (h : cleanB s = true) : ptx false s = s := by
  induction s with
  | nil => rfl
  | cons c r ih =>
    simp only [cleanB, List.all_cons, Bool.and_eq_true, bne_iff_ne, ne_eq] at h
    rw [ptx_cons_false r h.1.1.1, if_neg h.1.1.2]
    rw [ih (by simpa [cleanB] using h.2)]

theorem ptx_append (x : Str) :
    ∀ (b : Bool) (v : Str), ampFreeB x = true → tagBal b x = false →
      ptx b (x ++ v) = ptx b x ++ ptx false v := by
  induction x with
  | nil =>
    intro b v _ hb
    have hbf : b = false := by simpa [tagBal] using hb
    subst hbf
    simp [ptx]
  | cons c r ih =>
    intro b v hamp hbal
    have hampc : c ≠ '&' := by
      simp only [ampFreeB, List.all_cons, Bool.and_eq_true, bne_iff_ne, ne_eq] at hamp
      exact hamp.1
    have hampr : ampFreeB r = true := by
      simp only [ampFreeB, List.all_cons, Bool.and_eq_true] at hamp
      exact hamp.2
    cases b with
    | true =>
      have hbal' : tagBal (if c = '>' then false else true) r = false := hbal
      by_cases hgt : c = '>'
      · rw [List.cons_append, ptx_cons_true, if_pos hgt, ptx_cons_true, if_pos hgt]
        exact ih false v hampr (by simpa [hgt] using hbal')
      · rw [List.cons_append, ptx_cons_true, if_neg hgt, ptx_cons_true, if_neg hgt]
        exact ih true v hampr (by simpa [hgt] using hbal')
    | false =>
      have hbal' : tagBal (if c = '<' then true else false) r = false := hbal
      by_cases hlt : c = '<'
      · rw [List.cons_append, ptx_cons_false _ hampc, if_pos hlt,
          ptx_cons_false _ hampc, if_pos hlt]
        exact ih true v hampr (by simpa [hlt] using hbal')
      · rw [List.cons_append, ptx_cons_false _ hampc, if_neg hlt,
          ptx_cons_false _ hampc, if_neg hlt]
        rw [ih false v hampr (by simpa [hlt] using hbal'), List.cons_append]

theorem ptx_skipTag (u : Str) :
    ∀ v : Str, noGtB u = true → ptx true (u ++ '>' :: v) = ptx false v := by
  induction u with
  | nil => intro v _; simp [ptx_cons_true]
  | cons c r ih =>
    intro v h
    simp only [noGtB, List.all_cons, Bool.and_eq_true, bne_iff_ne, ne_eq] at h
    rw [List.cons_append, ptx_cons_true, if_neg h.1]
    exact ih v (by simpa [noGtB] using h.2)

theorem ptx_markerOpen (i : Nat) (t : Str) :
    ptx false (markerOpen i ++ t) = ptx false t := by
  have h1 : markerOpen i ++ t = '<' :: (markerTagBody i ++ '>' :: t) := by
    simp [markerOpen]
  rw [h1, ptx_cons_false _ (by decide), if_pos rfl]
  exact ptx_skipTag (markerTagBody i) t (markerTagBody_noGt i)

theorem ptx_closeSpan (t : Str) : ptx false (closeSpan ++ t) = ptx false t := by
  have h1 : closeSpan ++ t = '<' :: ("/span".toList ++ '>' :: t) := by
    simp [closeSpan]
  rw [h1, ptx_cons_false _ (by decide), if_pos rfl]
  exact ptx_skipTag "/span".toList t (by decide)

/-- Inserting one highlight wrapper at a position whose prefix is outside any
tag and ampersand-free does not change the plain-text reading. -/
theorem ptx_insert_marker (x orig y : Str) (idx : Nat)
    (hx1 : ampFreeB x = true) (hx2 : tagBal false x = false)
    (ho : cleanB orig = true) :
    ptx false (x ++ markerHTML idx orig ++ y) = ptx false (x ++ orig ++ y) := by
  have hoamp : ampFreeB orig = true := ampFreeB_of_clean ho
  have hobal : tagBal false orig = false := tagBal_clean ho
  rw [List.append_assoc, ptx_append x false _ hx1 hx2]
  rw [List.append_assoc, ptx_append x false _ hx1 hx2]
  congr 1
  rw [markerHTML, List.append_assoc, List.append_assoc, ptx_markerOpen]
  rw [ptx_append orig false _ hoamp hobal, ptx_clean_id ho, ptx_closeSpan]
  rw [ptx_append orig false _ hoamp hobal, ptx_clean_id ho]

/-! ## Well-behaved injection traces -/

/-- A run of the wrapping loop in which every suggestion, at its turn, either
does not occur in the working string at all, or first matches at a position
whose preceding string is outside any tag and ampersand-free, with match
text free of markup characters and of dollar signs (so GetSubstitution
leaves the injected wrapper unchanged) — i.e. the match falls wholly within
document plain text, not inside markup injected for an earlier suggestion
and not across an HTML entity, and the wrapper is inserted verbatim. -/
inductive GoodRun : List Suggestion → Nat → Str → Str → Prop
  | nil : ∀ idx w, GoodRun [] idx w w
  | skip : ∀ (s : Suggestion) rest idx w out,
      findIdx? s.originalText w = none →
      GoodRun rest (idx + 1) w out →
      GoodRun (s :: rest) idx w out
  | hit : ∀ (s : Suggestion) rest idx (x y : Str) out,
      findIdx? s.originalText (x ++ s.originalText ++ y) = some x.length →
      ampFreeB x = true → tagBal false x = false →
      cleanB s.originalText = true →
      dollarFreeB s.originalText = true →
      GoodRun rest (idx + 1) (x ++ markerHTML idx s.originalText ++ y) out →
      GoodRun (s :: rest) idx (x ++ s.originalText ++ y) out

theorem injectLoop_cons (s : Suggestion) (rest : List Suggestion) (idx : Nat)
    (content : Str) :
    injectLoop (s :: rest) idx content =
      injectLoop rest (idx + 1)
        (if containsSeq content s.originalText then
          replaceFirst content s.originalText (markerHTML idx s.originalText)
        else content) := rfl

theorem goodRun_injectLoop {sgs : List Suggestion} {idx : Nat} {w out : Str}
    (h : GoodRun sgs idx w out) : injectLoop sgs idx w = out := by
  induction h with
  | nil idx w => rfl
  | skip s rest idx w out hf _ ih =>
    have hcf : containsSeq w s.originalText = false := by
      simp [containsSeq, hf]
    rw [injectLoop_cons, hcf, if_neg (by simp)]
    exact ih
  | hit s rest idx x y out hf hx1 hx2 ho hdol _ ih =>
    rw [injectLoop_cons, if_pos (containsSeq_of_findIdx? hf),
      replaceFirst_parts x s.originalText y (markerHTML idx s.originalText) hf
        (markerHTML_dollarFree idx hdol)]
    exact ih

theorem goodRun_ptx {sgs : List Suggestion} {idx : Nat} {w out : Str}
    (h : GoodRun sgs idx w out) : ptx false out = ptx false w := by
  induction h with
  | nil idx w => rfl
  | skip s rest idx w out hf _ ih => exact ih
  | hit s rest idx x y out hf hx1 hx2 ho hdol _ ih =>
    rw [ih, ptx_insert_marker x s.originalText y idx hx1 hx2 ho]

theorem plainText_stripAll (d : Doc) : plainText (stripAll d) = plainText d := by
  induction d with
  | nil => rfl
  | cons n r ih =>
    have ih' : plainText (List.map stripAllN r) = plainText r := by
      simpa [stripAll] using ih
    cases n <;> simp [stripAll, plainText, plainTextN, stripAllN, ih']

theorem render_stripAll_clean {d : Doc} (h : docCleanB d = true) :
    render (stripAll d) = plainText d := by
  induction d with
  | nil => rfl
  | cons n r ih =>
    simp only [docCleanB, List.all_cons, Bool.and_eq_true] at h
    have hr := ih (by simpa [docCleanB] using h.2)
    cases n with
    | text s =>
      simp only [stripAll, List.map_cons, stripAllN, render, renderN, plainText,
        plainTextN]
      rw [escape_clean h.1, ← hr]; rfl
    | marker i c =>
      have hc : cleanB c = true := h.1
      simp only [stripAll, List.map_cons, stripAllN, render, renderN, plainText,
        plainTextN]
      rw [escape_clean hc, ← hr]; rfl
    | diff i o m =>
      have hc : cleanB o = true := by
        have := h.1
        simp only [docCleanN, Bool.and_eq_true] at this
        exact this.1
      simp only [stripAll, List.map_cons, stripAllN, render, renderN, plainText,
        plainTextN]
      rw [escape_clean hc, ← hr]; rfl
    | raw m => exact absurd h.1 (by simp [docCleanN])

theorem cleanB_plainText {d : Doc} (h : docCleanB d = true) :
    cleanB (plainText d) = true := by
  induction d with
  | nil => rfl
  | cons n r ih =>
    simp only [docCleanB, List.all_cons, Bool.and_eq_true] at h
    have hr := ih (by simpa [docCleanB] using h.2)
    cases n with
    | text s => simpa [plainText, plainTextN, cleanB_append] using ⟨h.1, hr⟩
    | marker i c => simpa [plainText, plainTextN, cleanB_append] using ⟨h.1, hr⟩
    | diff i o m =>
      have hc : cleanB o = true := by
        have := h.1
        simp only [docCleanN, Bool.and_eq_true] at this
        exact this.1
      simpa [plainText, plainTextN, cleanB_append] using ⟨hc, hr⟩
    | raw m => exact absurd h.1 (by simp [docCleanN])

theorem plainText_middle (A B : Doc) (n : DNode) :
    plainText (A ++ n :: B) = plainText A ++ plainTextN n ++ plainText B := by
  rw [plainText_append, List.append_assoc]; rfl

/-! ## Claim theorems -/

/-- C9: `analyzeTextForSuggestions` never rejects: an input that is empty or
shorter than 50 characters resolves to the empty list without contacting the
backend, and every backend error or JSON-parse error resolves to the empty
list instead of propagating. -/
theorem c9_analyze_total (text : Str) (response : Except Unit (Option Str))
    (parseJson : Str → Option (List Suggestion)) :
    (text.length < 50 →
      analyzeTextForSuggestions text response parseJson = ([], false))
    ∧ (∀ e, 50 ≤ text.length → response = .error e →
      analyzeTextForSuggestions text response parseJson = ([], true))
    ∧ (∀ r, 50 ≤ text.length → response = .ok r →
        parseJson (jsonStrOf r) = none →
        analyzeTextForSuggestions text response parseJson = ([], true)) := by
  refine ⟨?_, ?_, ?_⟩
  · intro h
    simp [analyzeTextForSuggestions, h]
  · intro e h he
    have h1 : text.isEmpty = false := by
      rcases text with _ | ⟨c, r⟩
      · simp at h
      · rfl
    have h2 : ¬ text.length < 50 := by omega
    simp [analyzeTextForSuggestions, h1, h2, he]
  · intro r h hr hp
    have h1 : text.isEmpty = false := by
      rcases text with _ | ⟨c, r'⟩
      · simp at h
      · rfl
    have h2 : ¬ text.length < 50 := by omega
    simp [analyzeTextForSuggestions, h1, h2, hr, hp]

theorem c9_analyze_total_witness :
    analyzeTextForSuggestions "short".toList (.ok none) (fun _ => some [])
      = ([], false)
    ∧ analyzeTextForSuggestions
        "This sentence is deliberately written to be longer than fifty characters.".toList
        (.error ()) (fun _ => some []) = ([], true)
    ∧ analyzeTextForSuggestions
        "This sentence is deliberately written to be longer than fifty characters.".toList
        (.ok (some "not json".toList)) (fun _ => none) = ([], true) := by
  refine ⟨?_, ?_, ?_⟩
  · exact (c9_analyze_total _ _ _).1 (by decide)
  · exact (c9_analyze_total _ _ _).2.1 () (by decide) rfl
  · exact (c9_analyze_total _ _ _).2.2 (some "not json".toList) (by decide) rfl rfl

/-- C4 counterexample: with a non-empty active suggestion set and a failing
backend request, `runProactiveAnalysis` does not leave the set unchanged: the
service resolves to `[]` and the set is replaced by it, i.e. cleared. -/
theorem c4_counterexample :
    runProactiveAnalysis
      "The quick brown fox jumps over the lazy dog in the warm sun.".toList
      [⟨"ran quickly".toList, "sprinted".toList, "weak adverb".toList,
        "Adverb".toList⟩]
      (.error ()) (fun _ => none)
    ≠ [⟨"ran quickly".toList, "sprinted".toList, "weak adverb".toList,
        "Adverb".toList⟩] := by
  decide

/-- C4 (amended): when the suggestion-source request fails, the active
suggestion set is not left unchanged; `analyzeTextForSuggestions` swallows
the failure into an empty list and `runProactiveAnalysis` unconditionally
replaces the active set with it, so any existing suggestions are cleared
(whenever the editor content passes the 10-character guard). -/
theorem c4_amended (editorContent : Str) (prev : List Suggestion)
    (parseJson : Str → Option (List Suggestion))
    (h10 : 10 ≤ editorContent.length) :
    runProactiveAnalysis editorContent prev (.error ()) parseJson = [] := by
  have h1 : editorContent.isEmpty = false := by
    rcases editorContent with _ | ⟨c, r⟩
    · simp at h10
    · rfl
  have h2 : ¬ editorContent.length < 10 := by omega
  by_cases h50 : editorContent.length < 50
  · simp [runProactiveAnalysis, analyzeTextForSuggestions, h1, h2, h50]
  · simp [runProactiveAnalysis, analyzeTextForSuggestions, h1, h2, h50]

theorem c4_amended_witness :
    10 ≤ ("A reasonably long piece of prose.".toList : Str).length
    ∧ runProactiveAnalysis "A reasonably long piece of prose.".toList
        [⟨"a".toList, "b".toList, "c".toList, "d".toList⟩]
        (.error ()) (fun _ => none) = [] :=
  ⟨by decide, c4_amended _ _ _ (by decide)⟩

/-- C7: `showDiffView` is a no-op whenever the suggestion's marker span does
not exist or the span's text content differs from `originalText`; a diff is
rendered only when the marker exists and its content equals `originalText`. -/
theorem c7_showDiff_guard (sgs : List Suggestion) (i : Nat) (st : EdState) :
    (markerAt? st.doc i = none → showDiffView sgs i st = st)
    ∧ (∀ s c, sgs[i]? = some s → markerAt? st.doc i = some c →
        c ≠ s.originalText → showDiffView sgs i st = st)
    ∧ (showDiffView sgs i st ≠ st →
        ∃ s, sgs[i]? = some s ∧ markerAt? st.doc i = some s.originalText) := by
  refine ⟨?_, ?_, ?_⟩
  · intro h
    cases hs : sgs[i]? with
    | none => simp [showDiffView, hs]
    | some s => simp [showDiffView, hs, h]
  · intro s c hs hc hne
    simp [showDiffView, hs, hc, hne]
  · intro hne
    cases hs : sgs[i]? with
    | none => exact absurd (by simp [showDiffView, hs]) hne
    | some s =>
      cases hc : markerAt? st.doc i with
      | none => exact absurd (by simp [showDiffView, hs, hc]) hne
      | some c =>
        by_cases he : c = s.originalText
        · exact ⟨s, rfl, by rw [he]⟩
        · exact absurd (by simp [showDiffView, hs, hc, he]) hne

theorem c7_showDiff_guard_witness :
    showDiffView [⟨"gone text".toList, "b".toList, "c".toList, "d".toList⟩] 0
      ⟨[DNode.text "hello world".toList], none⟩
      = ⟨[DNode.text "hello world".toList], none⟩
    ∧ showDiffView [⟨"other".toList, "b".toList, "c".toList, "d".toList⟩] 0
      ⟨[DNode.marker 0 "edited".toList], none⟩
      = ⟨[DNode.marker 0 "edited".toList], none⟩ :=
  ⟨(c7_showDiff_guard _ 0 _).1 (by decide),
   (c7_showDiff_guard _ 0 _).2.1
     ⟨"other".toList, "b".toList, "c".toList, "d".toList⟩ "edited".toList
     (by decide) (by decide) (by decide)⟩

/-- C10: with an empty active batch the highlight-injection effect returns
early: the margin card position list becomes empty and no stripping happens,
so annotation spans already present in the markup stay there (the rendered
content still carries each marker's id attribute). -/
theorem c10_empty_batch (doc : Doc) (i : Nat) (c : Str)
    (h : DNode.marker i c ∈ doc) :
    highlightEffect [] doc = (render doc, [])
    ∧ (findIdx? (idAttrM i) (highlightEffect [] doc).1).isSome = true := by
  constructor
  · rfl
  · obtain ⟨A, B, hAB⟩ := List.append_of_mem h
    subst hAB
    have hdecomp : render (A ++ DNode.marker i c :: B) =
        (render A ++ '<' :: "span class=\"critique-marker\" ".toList) ++
        (idAttrM i ++ (" data-index=\"".toList ++ natStr i ++ "\"".toList
          ++ ['>'] ++ (escape c ++ closeSpan ++ render B))) := by
      rw [render_append]
      simp [render, renderN, markerOpen, markerTagBody, List.append_assoc]
    show (findIdx? (idAttrM i) (render (A ++ DNode.marker i c :: B))).isSome = true
    rw [hdecomp]
    exact findIdx?_isSome_parts _ (idAttrM i) _

theorem c10_empty_batch_witness :
    DNode.marker 2 "stale".toList ∈
      [DNode.text "a".toList, DNode.marker 2 "stale".toList]
    ∧ highlightEffect []
        [DNode.text "a".toList, DNode.marker 2 "stale".toList]
      = (render [DNode.text "a".toList, DNode.marker 2 "stale".toList], [])
    ∧ (findIdx? (idAttrM 2)
        (highlightEffect [] [DNode.text "a".toList,
          DNode.marker 2 "stale".toList]).1).isSome = true := by
  refine ⟨by decide, ?_, ?_⟩
  · exact (c10_empty_batch _ 2 "stale".toList (by decide)).1
  · exact (c10_empty_batch _ 2 "stale".toList (by decide)).2

/-- C6: for a suggestion whose diff view is open, `acceptSuggestion` replaces
the diff container wholesale by a text node holding the rewrite, so the
plain-text reading changes from `originalText` to the replacement exactly
once at that location; the new `innerText` is committed through
`onContentChange`, the active index is cleared, and the suggestion is
removed from the active set — for a single-suggestion batch the set becomes
empty. -/
theorem c6_accept (sgs : List Suggestion) (i : Nat) (s : Suggestion)
    (A B : Doc) (act : Option Nat) (c0 : Str)
    (hs : sgs[i]? = some s) (hA : noDiffIdx i A = true) :
    acceptSuggestion i
      ⟨sgs, ⟨A ++ DNode.diff i s.originalText s.suggestion :: B, act⟩, c0⟩
      = ⟨sgs.eraseIdx i, ⟨A ++ DNode.text s.suggestion :: B, none⟩,
          innerTextOf (A ++ DNode.text s.suggestion :: B)⟩
    ∧ plainText (A ++ DNode.diff i s.originalText s.suggestion :: B)
        = plainText A ++ s.originalText ++ plainText B
    ∧ plainText (A ++ DNode.text s.suggestion :: B)
        = plainText A ++ s.suggestion ++ plainText B
    ∧ (sgs.length = 1 → sgs.eraseIdx i = []) := by
  have hdiff : diffAt? (A ++ DNode.diff i s.originalText s.suggestion :: B) i
      = some (s.originalText, s.suggestion) := diffAt?_parts _ _ _ hA
  have hrepl : replaceDiff (A ++ DNode.diff i s.originalText s.suggestion :: B)
      i [DNode.text s.suggestion] = A ++ DNode.text s.suggestion :: B := by
    have h := replaceDiff_parts s.originalText s.suggestion B
      [DNode.text s.suggestion] hA
    simpa [List.append_assoc] using h
  refine ⟨?_, ?_, ?_, ?_⟩
  · simp [acceptSuggestion, hs, hdiff, hrepl]
  · simp [plainText_middle, plainTextN]
  · simp [plainText_middle, plainTextN]
  · intro hlen
    obtain ⟨a, rfl⟩ := List.length_eq_one.mp hlen
    cases i with
    | zero => rfl
    | succ k => simp at hs

theorem c6_accept_witness :
    acceptSuggestion 0
      ⟨[⟨"He ran quickly".toList, "He sprinted".toList, "adverb".toList,
          "Adverb".toList⟩],
       ⟨[DNode.diff 0 "He ran quickly".toList "He sprinted".toList,
         DNode.text " to the store.".toList], some 0⟩, []⟩
      = ⟨[], ⟨[DNode.text "He sprinted".toList,
              DNode.text " to the store.".toList], none⟩,
          innerTextOf [DNode.text "He sprinted".toList,
            DNode.text " to the store.".toList]⟩ :=
  (c6_accept
    [⟨"He ran quickly".toList, "He sprinted".toList, "adverb".toList,
      "Adverb".toList⟩]
    0
    ⟨"He ran quickly".toList, "He sprinted".toList, "adverb".toList,
      "Adverb".toList⟩
    [] [DNode.text " to the store.".toList] (some 0) []
    (by decide) (by decide)).1

/-- C5 counterexample: `showDiffView` immediately followed by
`rejectSuggestion` does not restore the plain text byte-identically: the
`diffHTML` template's leading and trailing whitespace become text nodes that
the rejection leaves behind around the re-created marker span. -/
theorem c5_counterexample :
    plainText (rejectSuggestion
      [⟨"He ran quickly".toList, "He sprinted".toList, "adverb".toList,
        "Adverb".toList⟩] 0
      (showDiffView
        [⟨"He ran quickly".toList, "He sprinted".toList, "adverb".toList,
          "Adverb".toList⟩] 0
        ⟨[DNode.marker 0 "He ran quickly".toList,
          DNode.text " to the store.".toList], none⟩)).doc
    ≠ plainText [DNode.marker 0 "He ran quickly".toList,
        DNode.text " to the store.".toList] := by
  decide

/-- C5 (amended): for a suggestion whose `originalText` and rewrite are
markup-inert (raw interpolation into the `diffHTML` / `originalHTML`
templates otherwise yields a different parse), `showDiffView` followed
immediately by `rejectSuggestion` restores the suggestion's span to plain
`Highlighted` form with content `originalText`, and restores the plain text
up to the whitespace text nodes left behind by the diff template: the result
is the original plain text with the template's leading/trailing whitespace
inserted around the span. -/
theorem c5_amended (sgs : List Suggestion) (i : Nat) (s : Suggestion)
    (A B : Doc)
    (hs : sgs[i]? = some s)
    (hm : noMarkerIdx i A = true) (hd : noDiffIdx i A = true)
    (hti : textInertB s.originalText = true)
    (hai : attrInertB s.originalText = true)
    (htn : textInertB s.suggestion = true) :
    rejectSuggestion sgs i
        (showDiffView sgs i ⟨A ++ DNode.marker i s.originalText :: B, none⟩)
      = ⟨A ++ DNode.text wsPre :: DNode.marker i s.originalText ::
            DNode.text wsPost :: B, none⟩
    ∧ plainText (A ++ DNode.text wsPre :: DNode.marker i s.originalText ::
          DNode.text wsPost :: B)
      = plainText A ++ (wsPre ++ s.originalText ++ wsPost) ++ plainText B := by
  have horig : markerAt? (A ++ DNode.marker i s.originalText :: B) i
      = some s.originalText := markerAt?_parts _ _ hm
  have hreplm : replaceMarker (A ++ DNode.marker i s.originalText :: B) i
      [DNode.text wsPre, DNode.diff i s.originalText s.suggestion,
        DNode.text wsPost]
      = A ++ DNode.text wsPre :: DNode.diff i s.originalText s.suggestion ::
          DNode.text wsPost :: B := by
    have h := replaceMarker_parts s.originalText B
      [DNode.text wsPre, DNode.diff i s.originalText s.suggestion,
        DNode.text wsPost] hm
    simpa [List.append_assoc] using h
  have hshow : showDiffView sgs i ⟨A ++ DNode.marker i s.originalText :: B, none⟩
      = ⟨A ++ DNode.text wsPre :: DNode.diff i s.originalText s.suggestion ::
            DNode.text wsPost :: B, some i⟩ := by
    simp [showDiffView, hs, horig, hti, hai, htn, hreplm]
  have hd' : noDiffIdx i (A ++ [DNode.text wsPre]) = true := by
    simp [noDiffIdx, List.all_append] at hd ⊢
    exact hd
  have hdiffat : diffAt? (A ++ DNode.text wsPre ::
      DNode.diff i s.originalText s.suggestion :: DNode.text wsPost :: B) i
      = some (s.originalText, s.suggestion) := by
    have h := diffAt?_parts (A := A ++ [DNode.text wsPre]) s.originalText
      s.suggestion (DNode.text wsPost :: B) hd'
    simpa [List.append_assoc] using h
  have hrepl : replaceDiff (A ++ DNode.text wsPre ::
      DNode.diff i s.originalText s.suggestion :: DNode.text wsPost :: B) i
      [DNode.marker i s.originalText]
      = A ++ DNode.text wsPre :: DNode.marker i s.originalText ::
          DNode.text wsPost :: B := by
    have h := replaceDiff_parts (A := A ++ [DNode.text wsPre]) s.originalText
      s.suggestion (DNode.text wsPost :: B) [DNode.marker i s.originalText] hd'
    simpa [List.append_assoc] using h
  constructor
  · rw [hshow]
    simp [rejectSuggestion, hs, hdiffat, hti, hrepl]
  · simp [plainText_append, plainText, plainTextN, List.append_assoc]

theorem c5_amended_witness :
    rejectSuggestion
      [⟨"He ran quickly".toList, "He sprinted".toList, "adverb".toList,
        "Adverb".toList⟩] 0
      (showDiffView
        [⟨"He ran quickly".toList, "He sprinted".toList, "adverb".toList,
          "Adverb".toList⟩] 0
        ⟨[DNode.marker 0 "He ran quickly".toList,
          DNode.text " to the store.".toList], none⟩)
    = ⟨[DNode.text wsPre, DNode.marker 0 "He ran quickly".toList,
        DNode.text wsPost, DNode.text " to the store.".toList], none⟩ :=
  (c5_amended
    [⟨"He ran quickly".toList, "He sprinted".toList, "adverb".toList,
      "Adverb".toList⟩]
    0
    ⟨"He ran quickly".toList, "He sprinted".toList, "adverb".toList,
      "Adverb".toList⟩
    [] [DNode.text " to the store.".toList]
    (by decide) (by decide) (by decide) (by decide) (by decide) (by decide)).1

set_option maxRecDepth 100000 in
/-- C1 counterexample: a reachable state with two diff views open at once.
Starting from the document the injection pass itself produces for a
two-suggestion batch (the first conjunct checks that the exhibited node list
serializes to exactly the injection pass's output), opening suggestion 0's
diff and then suggestion 1's diff leaves both diff views in the document:
`showDiffView` never reverts the previously open diff, so the number of
suggestions in `DiffShown` state reaches 2, and suggestion 0's diff is still
present (neither reverted to a marker nor resolved). -/
theorem c1_counterexample :
    render [DNode.text "He ".toList,
        DNode.marker 0 "ran quickly".toList,
        DNode.text " and ".toList,
        DNode.marker 1 "walked slowly".toList,
        DNode.text ".".toList]
      = (highlightEffect
          [⟨"ran quickly".toList, "sprinted".toList, "adverb".toList,
            "Adverb".toList⟩,
           ⟨"walked slowly".toList, "strolled".toList, "adverb".toList,
            "Adverb".toList⟩]
          [DNode.text "He ran quickly and walked slowly.".toList]).1
    ∧ countDiffs (showDiffView
        [⟨"ran quickly".toList, "sprinted".toList, "adverb".toList,
          "Adverb".toList⟩,
         ⟨"walked slowly".toList, "strolled".toList, "adverb".toList,
          "Adverb".toList⟩] 1
        (showDiffView
          [⟨"ran quickly".toList, "sprinted".toList, "adverb".toList,
            "Adverb".toList⟩,
           ⟨"walked slowly".toList, "strolled".toList, "adverb".toList,
            "Adverb".toList⟩] 0
          ⟨[DNode.text "He ".toList,
            DNode.marker 0 "ran quickly".toList,
            DNode.text " and ".toList,
            DNode.marker 1 "walked slowly".toList,
            DNode.text ".".toList], none⟩)).doc = 2
    ∧ (diffAt? (showDiffView
        [⟨"ran quickly".toList, "sprinted".toList, "adverb".toList,
          "Adverb".toList⟩,
         ⟨"walked slowly".toList, "strolled".toList, "adverb".toList,
          "Adverb".toList⟩] 1
        (showDiffView
          [⟨"ran quickly".toList, "sprinted".toList, "adverb".toList,
            "Adverb".toList⟩,
           ⟨"walked slowly".toList, "strolled".toList, "adverb".toList,
            "Adverb".toList⟩] 0
          ⟨[DNode.text "He ".toList,
            DNode.marker 0 "ran quickly".toList,
            DNode.text " and ".toList,
            DNode.marker 1 "walked slowly".toList,
            DNode.text ".".toList], none⟩)).doc 0).isSome = true := by
  refine ⟨by decide, by decide, by decide⟩

/-- C1 (amended): opening a diff for suggestion `i` never reverts an already
open diff view: any diff view present before `showDiffView` is still present
afterwards (so several suggestions can be in `DiffShown` simultaneously);
only `activeSuggestionIndex` — the single "active margin card" slot — moves
to `i` when the diff is actually opened. -/
theorem c1_amended (sgs : List Suggestion) (i j : Nat) (st : EdState)
    (hj : (diffAt? st.doc j).isSome = true) :
    (diffAt? (showDiffView sgs i st).doc j).isSome = true
    ∧ (∀ s, sgs[i]? = some s → markerAt? st.doc i = some s.originalText →
        (showDiffView sgs i st).active = some i) := by
  constructor
  · obtain ⟨o, n, hmem⟩ := diffAt?_isSome_iff.mp hj
    cases hs : sgs[i]? with
    | none => simpa [showDiffView, hs] using hj
    | some s =>
      cases hc : markerAt? st.doc i with
      | none => simpa [showDiffView, hs, hc] using hj
      | some c =>
        by_cases he : c = s.originalText
        · by_cases hin : (textInertB s.originalText && attrInertB s.originalText
              && textInertB s.suggestion) = true
          · have hmem' : DNode.diff j o n ∈ replaceMarker st.doc i
                [DNode.text wsPre, DNode.diff i s.originalText s.suggestion,
                  DNode.text wsPost] :=
              mem_replaceMarker i _ hmem
                (fun j' c' h' => DNode.noConfusion h')
            simp only [showDiffView, hs, hc, he, hin, if_pos rfl, if_true]
            exact diffAt?_isSome_iff.mpr ⟨o, n, hmem'⟩
          · have hmem' : DNode.diff j o n ∈ replaceMarker st.doc i
                [DNode.raw (diffHTMLStr i s.originalText s.suggestion)] :=
              mem_replaceMarker i _ hmem
                (fun j' c' h' => DNode.noConfusion h')
            simp only [showDiffView, hs, hc, he, if_pos rfl, if_neg hin]
            exact diffAt?_isSome_iff.mpr ⟨o, n, hmem'⟩
        · simpa [showDiffView, hs, hc, he] using hj
  · intro s hs hc
    by_cases hin : (textInertB s.originalText && attrInertB s.originalText
        && textInertB s.suggestion) = true
    · simp [showDiffView, hs, hc, hin]
    · simp [showDiffView, hs, hc, hin]

theorem c1_amended_witness :
    (diffAt? (showDiffView
        [⟨"aa".toList, "bb".toList, "r".toList, "Tone".toList⟩,
         ⟨"cc".toList, "dd".toList, "r".toList, "Tone".toList⟩] 0
        ⟨[DNode.diff 1 "cc".toList "dd".toList,
          DNode.marker 0 "aa".toList], none⟩).doc 1).isSome = true
    ∧ (showDiffView
        [⟨"aa".toList, "bb".toList, "r".toList, "Tone".toList⟩,
         ⟨"cc".toList, "dd".toList, "r".toList, "Tone".toList⟩] 0
        ⟨[DNode.diff 1 "cc".toList "dd".toList,
          DNode.marker 0 "aa".toList], none⟩).active = some 0 :=
  ⟨(c1_amended _ 0 1 _ (by decide)).1,
   (c1_amended _ 0 1 _ (by decide)).2
     ⟨"aa".toList, "bb".toList, "r".toList, "Tone".toList⟩
     (by decide) (by decide)⟩

set_option maxRecDepth 400000 in
/-- C2 counterexample: the injection pass's substring search runs over the
HTML-serialized form of the document, not over plain text.  On a document
containing `AT&T` (serialized `AT&amp;T`), a suggestion whose
`originalText` is `amp;` matches inside the serialized entity; wrapping it
splits the entity across a tag boundary and the document's plain text
changes from `... AT&T ...` to `... AT&amp;T ...`.  (The second conjunct
checks the plain-text reading is faithful on the document before the pass.) -/
theorem c2_counterexample :
    ptx false (highlightEffect
        [⟨"amp;".toList, "x".toList, "r".toList, "Tone".toList⟩]
        [DNode.text
          "Call AT&T now and ask them about the total saver bundle.".toList]).1
    ≠ plainText [DNode.text
          "Call AT&T now and ask them about the total saver bundle.".toList]
    ∧ ptx false (render [DNode.text
          "Call AT&T now and ask them about the total saver bundle.".toList])
      = plainText [DNode.text
          "Call AT&T now and ask them about the total saver bundle.".toList] := by
  exact ⟨by decide, by decide⟩

/-- C2 (amended): the injection pass leaves the document's plain text
unchanged provided every suggestion, at its turn in the loop, either does
not occur in the working string or first matches wholly inside document
plain text — not overlapping markup injected for an earlier suggestion and
not splitting a serialized entity — with suggestion text free of
markup-significant characters and of dollar signs (which JS
`String.replace` would substitute inside the injected wrapper), and the
document's character data free of markup-significant characters.  Without
these conditions the serialized-form search, or the replacement-string
substitution, can change the plain text (see the counterexample). -/
theorem c2_amended (doc : Doc) (sgs : List Suggestion) (out : Str)
    (hclean : docCleanB doc = true) (hne : sgs.isEmpty = false)
    (hrun : GoodRun sgs 0 (render (stripAll doc)) out) :
    (highlightEffect sgs doc).1 = out ∧ ptx false out = plainText doc := by
  constructor
  · simp [highlightEffect, hne, goodRun_injectLoop hrun]
  · rw [goodRun_ptx hrun, render_stripAll_clean hclean,
      ptx_clean_id (cleanB_plainText hclean)]

set_option maxRecDepth 400000 in
theorem c2_amended_witness :
    (highlightEffect
        [⟨"ran quickly".toList, "sprinted".toList, "r".toList,
          "Adverb".toList⟩]
        [DNode.text
          "He ran quickly to the store and came back home fast.".toList]).1
      = "He ".toList ++ markerHTML 0 "ran quickly".toList ++
          " to the store and came back home fast.".toList
    ∧ ptx false ("He ".toList ++ markerHTML 0 "ran quickly".toList ++
          " to the store and came back home fast.".toList)
      = plainText [DNode.text
          "He ran quickly to the store and came back home fast.".toList] := by
  have hw : render (stripAll [DNode.text
      "He ran quickly to the store and came back home fast.".toList])
      = "He ".toList ++ "ran quickly".toList ++
          " to the store and came back home fast.".toList := by decide
  have hrun : GoodRun
      [⟨"ran quickly".toList, "sprinted".toList, "r".toList, "Adverb".toList⟩]
      0
      (render (stripAll [DNode.text
        "He ran quickly to the store and came back home fast.".toList]))
      ("He ".toList ++ markerHTML 0 "ran quickly".toList ++
        " to the store and came back home fast.".toList) := by
    rw [hw]
    exact GoodRun.hit
      ⟨"ran quickly".toList, "sprinted".toList, "r".toList, "Adverb".toList⟩
      [] 0 "He ".toList " to the store and came back home fast.".toList _
      (by decide) (by decide) (by decide) (by decide) (by decide)
      (GoodRun.nil 1 _)
  exact c2_amended _ _ _ (by decide) (by decide) hrun

theorem anchorPos_isSome_of_marker {i : Nat} {content : Str}
    (h : (findIdx? (idAttrM i) content).isSome = true) :
    (anchorPos i content).isSome = true := by
  unfold anchorPos
  cases hf : findIdx? (idAttrM i) content with
  | none => rw [hf] at h; cases h
  | some p => rfl

theorem filterMap_anchor_indexes (content : Str) (l : List Nat) :
    (l.filterMap fun i => (anchorPos i content).map
      fun p => MarginCardPosition.mk i (topOf content p)).map
        MarginCardPosition.index
      = l.filter fun i => (anchorPos i content).isSome := by
  induction l with
  | nil => rfl
  | cons a r ih =>
    cases ha : anchorPos a content with
    | none => simp [List.filterMap_cons, List.filter_cons, ha, ih]
    | some p => simp [List.filterMap_cons, List.filter_cons, ha, ih]

theorem calculatePositions_indexes (sgs : List Suggestion) (content : Str) :
    (calculatePositions sgs content).map MarginCardPosition.index
      = (List.range sgs.length).filter fun i => (anchorPos i content).isSome :=
  filterMap_anchor_indexes content (List.range sgs.length)

set_option maxRecDepth 400000 in
/-- C3 counterexample: two suggestions with the same `originalText`
occurring once in the document.  The second suggestion's search finds the
text inside the first suggestion's injected wrapper (the search runs over
the serialized markup, not plain text), so the second suggestion does get a
locatable anchor — a marker nested inside marker 0 — and the recomputation
pass produces a margin card for it: the position list has two entries, not
one. -/
theorem c3_counterexample :
    (anchorPos 1 (highlightEffect
        [⟨"very good".toList, "excellent".toList, "cliche".toList,
          "Tone".toList⟩,
         ⟨"very good".toList, "superb".toList, "weak".toList,
          "Adverb".toList⟩]
        [DNode.text "It was very good indeed.".toList]).1).isSome = true
    ∧ (calculatePositions
        [⟨"very good".toList, "excellent".toList, "cliche".toList,
          "Tone".toList⟩,
         ⟨"very good".toList, "superb".toList, "weak".toList,
          "Adverb".toList⟩]
        (highlightEffect
          [⟨"very good".toList, "excellent".toList, "cliche".toList,
            "Tone".toList⟩,
           ⟨"very good".toList, "superb".toList, "weak".toList,
            "Adverb".toList⟩]
          [DNode.text "It was very good indeed.".toList]).1).length = 2 := by
  exact ⟨by decide, by decide⟩

/-- C3 (amended): for a batch of two suggestions with identical
`originalText` occurring once in the document's plain text — the text free
of markup-significant characters and of dollar signs (which JS
`String.replace` would substitute inside the injected wrapper) — injection
wraps the occurrence for the first suggestion, and the second suggestion's
search — performed against the serialized markup — finds the text inside the
first suggestion's wrapper and nests `marker-1` within `marker-0`.  Both
suggestions therefore have locatable anchors and the margin position list
gets an entry for each (`[0, 1]`), while the plain text is unchanged. -/
theorem c3_amended (x y orig ins1 ins2 r1 r2 k1 k2 : Str)
    (hx : cleanB x = true) (hy : cleanB y = true) (ho : cleanB orig = true)
    (hdol : dollarFreeB orig = true)
    (h1 : findIdx? orig (x ++ orig ++ y) = some x.length)
    (h2 : findIdx? orig ((x ++ markerOpen 0) ++ orig ++ (closeSpan ++ y))
        = some (x ++ markerOpen 0).length) :
    (highlightEffect [⟨orig, ins1, r1, k1⟩, ⟨orig, ins2, r2, k2⟩]
        [DNode.text (x ++ orig ++ y)]).1
      = (x ++ markerOpen 0) ++ markerHTML 1 orig ++ (closeSpan ++ y)
    ∧ (anchorPos 0 ((x ++ markerOpen 0) ++ markerHTML 1 orig ++
        (closeSpan ++ y))).isSome = true
    ∧ (anchorPos 1 ((x ++ markerOpen 0) ++ markerHTML 1 orig ++
        (closeSpan ++ y))).isSome = true
    ∧ (calculatePositions [⟨orig, ins1, r1, k1⟩, ⟨orig, ins2, r2, k2⟩]
        ((x ++ markerOpen 0) ++ markerHTML 1 orig ++ (closeSpan ++ y))).map
          MarginCardPosition.index = [0, 1]
    ∧ ptx false ((x ++ markerOpen 0) ++ markerHTML 1 orig ++ (closeSpan ++ y))
      = x ++ orig ++ y := by
  have hcl : cleanB (x ++ orig ++ y) = true := by
    simp [cleanB_append, hx, hy, ho]
  have hrender : render (stripAll [DNode.text (x ++ orig ++ y)])
      = x ++ orig ++ y := by
    simp only [stripAll, List.map_cons, List.map_nil, stripAllN, render,
      renderN, List.append_nil]
    exact escape_clean hcl
  have hassoc : x ++ markerHTML 0 orig ++ y
      = (x ++ markerOpen 0) ++ orig ++ (closeSpan ++ y) := by
    simp [markerHTML, List.append_assoc]
  have hout : (highlightEffect [⟨orig, ins1, r1, k1⟩, ⟨orig, ins2, r2, k2⟩]
      [DNode.text (x ++ orig ++ y)]).1
      = (x ++ markerOpen 0) ++ markerHTML 1 orig ++ (closeSpan ++ y) := by
    have hstep1 : injectLoop
        [⟨orig, ins1, r1, k1⟩, ⟨orig, ins2, r2, k2⟩] 0 (x ++ orig ++ y)
        = injectLoop [⟨orig, ins2, r2, k2⟩] 1
            ((x ++ markerOpen 0) ++ orig ++ (closeSpan ++ y)) := by
      rw [injectLoop_cons, if_pos (containsSeq_of_findIdx? h1)]
      rw [replaceFirst_parts x orig y (markerHTML 0 orig) h1
        (markerHTML_dollarFree 0 hdol), hassoc]
    have hstep2 : injectLoop [⟨orig, ins2, r2, k2⟩] 1
        ((x ++ markerOpen 0) ++ orig ++ (closeSpan ++ y))
        = (x ++ markerOpen 0) ++ markerHTML 1 orig ++ (closeSpan ++ y) := by
      rw [injectLoop_cons, if_pos (containsSeq_of_findIdx? h2)]
      rw [replaceFirst_parts (x ++ markerOpen 0) orig (closeSpan ++ y)
        (markerHTML 1 orig) h2 (markerHTML_dollarFree 1 hdol)]
      rfl
    simp only [highlightEffect, List.isEmpty_cons, Bool.false_eq_true,
      if_false, hrender]
    rw [hstep1, hstep2]
  have hdec0 : (x ++ markerOpen 0) ++ markerHTML 1 orig ++ (closeSpan ++ y)
      = (x ++ '<' :: "span class=\"critique-marker\" ".toList) ++
        (idAttrM 0 ++ (" data-index=\"".toList ++ natStr 0 ++ "\"".toList
          ++ ['>'] ++ (markerHTML 1 orig ++ (closeSpan ++ y)))) := by
    simp [markerOpen, markerTagBody, List.append_assoc]
  have hdec1 : (x ++ markerOpen 0) ++ markerHTML 1 orig ++ (closeSpan ++ y)
      = ((x ++ markerOpen 0) ++ '<' ::
          "span class=\"critique-marker\" ".toList) ++
        (idAttrM 1 ++ (" data-index=\"".toList ++ natStr 1 ++ "\"".toList
          ++ ['>'] ++ (orig ++ closeSpan ++ (closeSpan ++ y)))) := by
    simp [markerHTML, markerOpen, markerTagBody, List.append_assoc]
  have ha0 : (anchorPos 0 ((x ++ markerOpen 0) ++ markerHTML 1 orig ++
      (closeSpan ++ y))).isSome = true := by
    apply anchorPos_isSome_of_marker
    rw [hdec0]
    exact findIdx?_isSome_parts _ (idAttrM 0) _
  have ha1 : (anchorPos 1 ((x ++ markerOpen 0) ++ markerHTML 1 orig ++
      (closeSpan ++ y))).isSome = true := by
    apply anchorPos_isSome_of_marker
    rw [hdec1]
    exact findIdx?_isSome_parts _ (idAttrM 1) _
  have hcards : (calculatePositions [⟨orig, ins1, r1, k1⟩, ⟨orig, ins2, r2, k2⟩]
      ((x ++ markerOpen 0) ++ markerHTML 1 orig ++ (closeSpan ++ y))).map
        MarginCardPosition.index = [0, 1] := by
    rw [calculatePositions_indexes]
    have hr2 : List.range
        ([(⟨orig, ins1, r1, k1⟩ : Suggestion), ⟨orig, ins2, r2, k2⟩]).length
        = [0, 1] := rfl
    rw [hr2]
    simp only [List.filter_cons, List.filter_nil, ha0, ha1,
      eq_self_iff_true, if_true]
  have hptx : ptx false ((x ++ markerOpen 0) ++ markerHTML 1 orig ++
      (closeSpan ++ y)) = x ++ orig ++ y := by
    have hre : (x ++ markerOpen 0) ++ markerHTML 1 orig ++ (closeSpan ++ y)
        = x ++ (markerOpen 0 ++ (markerOpen 1 ++ (orig ++ (closeSpan ++
            (closeSpan ++ y))))) := by
      simp [markerHTML, List.append_assoc]
    rw [hre, ptx_append x false _ (ampFreeB_of_clean hx) (tagBal_clean hx),
      ptx_clean_id hx, ptx_markerOpen, ptx_markerOpen,
      ptx_append orig false _ (ampFreeB_of_clean ho) (tagBal_clean ho),
      ptx_clean_id ho, ptx_closeSpan, ptx_closeSpan, ptx_clean_id hy,
      List.append_assoc]
  exact ⟨hout, ha0, ha1, hcards, hptx⟩

set_option maxRecDepth 400000 in
theorem c3_amended_witness :
    (highlightEffect
        [⟨"very good".toList, "excellent".toList, "cliche".toList,
          "Tone".toList⟩,
         ⟨"very good".toList, "superb".toList, "weak".toList,
          "Adverb".toList⟩]
        [DNode.text ("It was ".toList ++ "very good".toList ++
          " indeed.".toList)]).1
      = ("It was ".toList ++ markerOpen 0) ++ markerHTML 1 "very good".toList
          ++ (closeSpan ++ " indeed.".toList)
    ∧ (calculatePositions
        [⟨"very good".toList, "excellent".toList, "cliche".toList,
          "Tone".toList⟩,
         ⟨"very good".toList, "superb".toList, "weak".toList,
          "Adverb".toList⟩]
        (("It was ".toList ++ markerOpen 0) ++
          markerHTML 1 "very good".toList ++
          (closeSpan ++ " indeed.".toList))).map
            MarginCardPosition.index = [0, 1] := by
  have h := c3_amended "It was ".toList " indeed.".toList "very good".toList
    "excellent".toList "superb".toList "cliche".toList "weak".toList
    "Tone".toList "Adverb".toList
    (by decide) (by decide) (by decide) (by decide) (by decide) (by decide)
  exact ⟨h.1, h.2.2.2.1⟩

set_option maxRecDepth 400000 in
/-- C8 counterexample: `calculatePositions` pushes entries in suggestion
batch order and never sorts.  With a batch whose order opposes document
order — suggestion 0 anchors on the second line, suggestion 1 on the first —
the produced list has vertical offsets `[1, 0]`: it is not sorted by
ascending vertical offset. -/
theorem c8_counterexample :
    ((calculatePositions
        [⟨"aa".toList, "AA".toList, "r".toList, "Tone".toList⟩,
         ⟨"bb".toList, "BB".toList, "r".toList, "Tone".toList⟩]
        (highlightEffect
          [⟨"aa".toList, "AA".toList, "r".toList, "Tone".toList⟩,
           ⟨"bb".toList, "BB".toList, "r".toList, "Tone".toList⟩]
          [DNode.text "bb\naa".toList]).1).map MarginCardPosition.top)
      = [1, 0]
    ∧ ¬ List.Pairwise (· ≤ ·)
        ((calculatePositions
          [⟨"aa".toList, "AA".toList, "r".toList, "Tone".toList⟩,
           ⟨"bb".toList, "BB".toList, "r".toList, "Tone".toList⟩]
          (highlightEffect
            [⟨"aa".toList, "AA".toList, "r".toList, "Tone".toList⟩,
             ⟨"bb".toList, "BB".toList, "r".toList, "Tone".toList⟩]
            [DNode.text "bb\naa".toList]).1).map MarginCardPosition.top) := by
  have h1 : ((calculatePositions
      [⟨"aa".toList, "AA".toList, "r".toList, "Tone".toList⟩,
       ⟨"bb".toList, "BB".toList, "r".toList, "Tone".toList⟩]
      (highlightEffect
        [⟨"aa".toList, "AA".toList, "r".toList, "Tone".toList⟩,
         ⟨"bb".toList, "BB".toList, "r".toList, "Tone".toList⟩]
        [DNode.text "bb\naa".toList]).1).map MarginCardPosition.top)
      = [1, 0] := by decide
  refine ⟨h1, ?_⟩
  rw [h1]
  intro h
  rcases h with _ | ⟨hh, _⟩
  exact absurd (hh 0 (List.mem_singleton.mpr rfl)) (by omega)

/-- C8 (amended): a recomputation pass produces exactly one entry per active
suggestion with a locatable anchor, listed in suggestion batch order
(strictly increasing suggestion index) — not sorted by vertical offset; the
list is sorted by vertical offset only when batch order happens to agree
with reading order. -/
theorem c8_amended (sgs : List Suggestion) (content : Str) :
    (calculatePositions sgs content).map MarginCardPosition.index
      = (List.range sgs.length).filter (fun i => (anchorPos i content).isSome)
    ∧ List.Pairwise (· < ·)
        ((calculatePositions sgs content).map MarginCardPosition.index) := by
  refine ⟨calculatePositions_indexes sgs content, ?_⟩
  rw [calculatePositions_indexes sgs content]
  exact (List.pairwise_lt_range _).sublist (List.filter_sublist _)
